import Mathlib

/-!
Verification development for the go-qcow2reader QCOW2 image engine.

The Go source is shallowly embedded: pure Go functions become Lean
functions, machine integers become `Nat` (offsets, sizes and lengths in
the read path are non-negative and far below 2^63 on every reachable
path, so `Nat` subtraction coincides with the Go `int64`/`uint64`
arithmetic at every comparison the code performs; where Go shift
semantics matter, the reduction modulo 2^64 is written explicitly),
fallible code returns `Except`/`Option`, and a Go `(n int, err error)`
read result becomes `List Nat × Option RErr` where the list holds the
bytes actually written into the destination buffer (its length is `n`).

The underlying random-access byte store (`io.ReaderAt` over the image
file) is modelled as a total byte function: a read of `l` bytes at host
offset `o` returns exactly the bytes `o, o+1, …` — the host file always
serves in-range reads of allocated clusters.  The decompressor stream
and the backing image are kept abstract as behaviour functions, since
their code lives outside the translated unit.  Extended-L2 images are
outside the model (the source marks that path experimental and no claim
exercises it).
-/

set_option maxRecDepth 8000

namespace GoQcow2

/-- RErr models the error component of a Go read: `io.EOF` or any other
error (identified by its message). -/
inductive RErr
  | eof
  | other (msg : String)
deriving DecidableEq

namespace image

/-- Extent mirrors image.Extent: a byte range with one allocation /
zero / compression status (fields in source declaration order). -/
structure Extent where
  start : Nat
  length : Nat
  allocated : Bool
  zero : Bool
  compressed : Bool
deriving DecidableEq

end image

/-- BImg abstracts the backing image (any image.Image): its virtual
size together with the observable behaviour of its ReadAt (arguments:
buffer length, offset) and Extent (arguments: start, length) methods. -/
structure BImg where
  size : Nat
  readAt : Nat → Nat → List Nat × Option RErr
  extent : Nat → Nat → Except String image.Extent

/-- Qcow2 models the open image handle: the fields of the Go struct
that the read and extent paths consult.  `l2at` gives the contents of
the L2 table stored at a host offset (readL2Table seen through the LRU
cache, which is verified separately and is semantically transparent);
`fileByte` is the byte store behind `img.ra`; `decompRead` is the
observable behaviour of one decompressor `Read` after discarding
`off mod clusterSize` bytes of the stream opened at a host offset;
`unreadable` is the cached `errUnreadable`. -/
structure Qcow2 where
  size : Nat
  clusterBits : Nat
  clusterSize : Nat
  l1Table : List Nat
  l2at : Nat → List Nat
  fileByte : Nat → Nat
  decompRead : Nat → Nat → Nat → List Nat × Option RErr
  backing : Option BImg
  unreadable : Option String

/-- l2Entries mirrors `img.l2Entries = clusterSize / 8` (no extended
L2 in the model). -/
def Qcow2.l2Entries (img : Qcow2) : Nat := img.clusterSize / 8

/-- l2Offset mirrors l1TableEntry.l2Offset: bits 9..55 of an L1 entry. -/
def l2Offset (l1Entry : Nat) : Nat := l1Entry &&& 0x00fffffffffffe00

/-- clusterDescriptor mirrors l2TableEntry.clusterDescriptor: the low
62 bits of an L2 entry. -/
def clusterDescriptor (l2Entry : Nat) : Nat := l2Entry &&& 0x3fffffffffffffff

/-- compressedFlag mirrors l2TableEntry.compressed: bit 62. -/
def compressedFlag (l2Entry : Nat) : Bool := (l2Entry >>> 62) &&& 1 = 1

/-- allZero mirrors standardClusterDescriptor.allZero: bit 0. -/
def allZero (desc : Nat) : Bool := desc &&& 1 = 1

/-- hostClusterOffset mirrors standardClusterDescriptor.hostClusterOffset:
bits 9..55 of a standard cluster descriptor. -/
def hostClusterOffset (desc : Nat) : Nat := desc &&& 0x00fffffffffffe00

/-- openClusterSize mirrors the `img.clusterSize = 1 << img.ClusterBits`
assignment in Open with Go shift semantics on a 64-bit int: a shift
count of 64 or more drops every bit, yielding 0. -/
def openClusterSize (clusterBits : Nat) : Nat := (1 <<< clusterBits) % 2 ^ 64

/-- readZero mirrors the package-level readZero(p, off, sz): it zeroes
the in-bounds prefix of the buffer and reports EOF exactly when the
request extends past `sz`.  The returned list is the written prefix. -/
def readZero (l off sz : Nat) : List Nat × Option RErr :=
  if sz < off + l then (List.replicate (sz - off) 0, some RErr.eof)
  else (List.replicate l 0, none)

/-- ClusterMeta mirrors the clusterMeta record filled by getClusterMeta
(extended-L2 fields omitted; unset Go fields keep their zero values). -/
structure ClusterMeta where
  l1Index : Nat := 0
  l1Entry : Nat := 0
  l2Index : Nat := 0
  l2Entry : Nat := 0
  allocated : Bool := false
  compressed : Bool := false
  zero : Bool := false
deriving DecidableEq

/-- getClusterMeta mirrors Qcow2.getClusterMeta for a virtual offset:
L1 lookup with bounds check, L2 table fetch, descriptor decoding. -/
def getClusterMeta (img : Qcow2) (off : Nat) : Except String ClusterMeta :=
  let clusterNo := off / img.clusterSize
  let l1Index := clusterNo / img.l2Entries
  if img.l1Table.length ≤ l1Index then .error "index exceeds the L1 table length"
  else
    let l1Entry := img.l1Table.getD l1Index 0
    let l2TableOffset := l2Offset l1Entry
    if l2TableOffset = 0 then .ok { l1Index := l1Index, l1Entry := l1Entry }
    else
      let l2Index := clusterNo % img.l2Entries
      let l2Table := img.l2at l2TableOffset
      if l2Table.length ≤ l2Index then .error "index exceeds the L2 table length"
      else
        let l2Entry := l2Table.getD l2Index 0
        let desc := clusterDescriptor l2Entry
        if desc = 0 then
          .ok { l1Index := l1Index, l1Entry := l1Entry, l2Index := l2Index, l2Entry := l2Entry }
        else if compressedFlag l2Entry then
          .ok { l1Index := l1Index, l1Entry := l1Entry, l2Index := l2Index, l2Entry := l2Entry,
                allocated := true, compressed := true }
        else
          .ok { l1Index := l1Index, l1Entry := l1Entry, l2Index := l2Index, l2Entry := l2Entry,
                allocated := true, zero := allZero desc }

/-- raReadFull models `img.ra.ReadAt` on the host file: the store is a
total byte function, so an l-byte read at a host offset returns those l
bytes with no error. -/
def raReadFull (img : Qcow2) (l off : Nat) : List Nat :=
  (List.range l).map fun i => img.fileByte (off + i)

/-- readAtAlignedUnallocated mirrors Qcow2.readAtAlignedUnallocated:
no backing image means zero fill; otherwise delegate to the backing
image, mask its EOF, and zero-fill the remainder. -/
def readAtAlignedUnallocated (img : Qcow2) (l off : Nat) : List Nat × Option RErr :=
  match img.backing with
  | none => readZero l off img.size
  | some b =>
    let r := b.readAt l off
    let n := r.1.length
    let err := if r.2 = some RErr.eof then none else r.2
    if 0 < l - n then
      let z := readZero (l - n) (off + n) img.size
      (r.1 ++ z.1, if err = none then z.2 else err)
    else (r.1, err)

/-- readAtAlignedStandard mirrors Qcow2.readAtAlignedStandard (error
message wrapping dropped; the host store serves full reads). -/
def readAtAlignedStandard (img : Qcow2) (l off desc : Nat) : List Nat × Option RErr :=
  if allZero desc then readZero l off img.size
  else
    let rawOffset := hostClusterOffset desc + off % img.clusterSize
    if rawOffset = 0 then ([], some (RErr.other "invalid raw offset 0"))
    else (raReadFull img l rawOffset, none)

/-- readAtAlignedCompressed mirrors Qcow2.readAtAlignedCompressed: the
x-bit host-offset extraction and the zero check; the decompressor
stream behaviour (one Read after the discard) is the abstract
`decompRead` field. -/
def readAtAlignedCompressed (img : Qcow2) (l off desc : Nat) : List Nat × Option RErr :=
  let x := 62 - (img.clusterBits - 8)
  let host := desc &&& (2 ^ x - 1)
  if host = 0 then ([], some (RErr.other "invalid host cluster offset 0"))
  else img.decompRead host (off % img.clusterSize) l

/-- readAtAligned mirrors Qcow2.readAtAligned: resolve the cluster and
dispatch to the unallocated / compressed / standard path (contextual
error wrapping dropped). -/
def readAtAligned (img : Qcow2) (l off : Nat) : List Nat × Option RErr :=
  match getClusterMeta img off with
  | .error e => ([], some (RErr.other e))
  | .ok cm =>
    if cm.allocated = false then readAtAlignedUnallocated img l off
    else
      let desc := clusterDescriptor cm.l2Entry
      if cm.compressed then readAtAlignedCompressed img l off desc
      else readAtAlignedStandard img l off desc

/-- readLoop mirrors the per-cluster loop inside Qcow2.ReadAt.  `n` is
the running byte count, `remaining` the clipped count still wanted,
`acc` the bytes written so far.  Fuel is structural; the caller passes
`remaining + 1`, which is enough because every continuing iteration
reads at least one byte. -/
def readLoop (img : Qcow2) (pLen off : Nat) :
    Nat → Nat → Nat → List Nat → List Nat × Nat × Option RErr
  | 0, n, _, acc => (acc, n, none)
  | fuel + 1, n, remaining, acc =>
    if remaining = 0 then (acc, n, none)
    else
      let currentOff := off + n
      let clusterNo := currentOff / img.clusterSize
      let clusterBegin := clusterNo * img.clusterSize
      let clusterEnd := clusterBegin + img.clusterSize
      let readSize := clusterEnd - currentOff
      let pIndexEnd := min (n + readSize) pLen
      let r := readAtAligned img (pIndexEnd - n) currentOff
      let currentN := r.1.length
      let err := if currentN = 0 ∧ r.2 = none then some RErr.eof else r.2
      let n' := n + currentN
      let remaining' := remaining - currentN
      let acc' := acc ++ r.1
      match err with
      | some e => (acc', n', some e)
      | none => readLoop img pLen off fuel n' remaining' acc'

/-- ReadAt mirrors Qcow2.ReadAt: cached-unreadable guard, zero cluster
size guard, empty-buffer guard, EOF clipping, the cluster loop, and the
deferred EOF. -/
def Qcow2.ReadAt (img : Qcow2) (pLen off : Nat) : List Nat × Option RErr :=
  match img.unreadable with
  | some s => ([], some (RErr.other s))
  | none =>
    if img.clusterSize = 0 then ([], some (RErr.other "cluster size cannot be 0"))
    else if pLen = 0 then ([], none)
    else
      let eof := img.size ≤ off + pLen
      let remaining := if img.size ≤ off + pLen then img.size - off else pLen
      let r := readLoop img pLen off (remaining + 1) 0 remaining []
      (r.1, if r.2.2 = none ∧ eof then some RErr.eof else r.2.2)

/-- clusterStatus mirrors Qcow2.clusterStatus: the extent of the single
cluster at an aligned offset, falling through to the backing image's
Extent and re-framing its length to the cluster size. -/
def clusterStatus (img : Qcow2) (off : Nat) : Except String image.Extent :=
  match getClusterMeta img off with
  | .error e => .error e
  | .ok cm =>
    if cm.allocated = false then
      match img.backing with
      | none => .ok { start := off, length := img.clusterSize,
                      allocated := false, zero := true, compressed := false }
      | some b =>
        if b.size ≤ off then
          .ok { start := off, length := img.clusterSize,
                allocated := false, zero := true, compressed := false }
        else
          let length := if b.size < off + img.clusterSize then b.size - off
                        else img.clusterSize
          match b.extent off length with
          | .error e => .error e
          | .ok parent => .ok { parent with length := img.clusterSize }
    else
      .ok { start := off, length := img.clusterSize,
            allocated := true, zero := cm.zero, compressed := cm.compressed }

/-- sameStatus mirrors the package-level sameStatus. -/
def sameStatus (a b : image.Extent) : Bool :=
  a.allocated = b.allocated ∧ a.zero = b.zero ∧ a.compressed = b.compressed

/-- clipFirst mirrors the first-cluster clip of Qcow2.Extent: when the
cluster starts before the queried `start`, assign `Start := start` and
then subtract `start - Start` from the length — the source performs the
assignment first, so the subtraction is of zero and the length is in
fact unchanged. -/
def clipFirst (start : Nat) (cs0 : image.Extent) : image.Extent :=
  if cs0.start < start then
    let csA := { cs0 with start := start }
    { csA with length := csA.length - (start - csA.start) }
  else cs0

/-- clipLast mirrors the last-cluster clip of Qcow2.Extent: when fewer
than a cluster's worth of bytes remain, trim the surplus. -/
def clipLast (clusterSize remaining : Nat) (cs1 : image.Extent) : image.Extent :=
  if remaining < clusterSize then
    { cs1 with length := cs1.length - (clusterSize - remaining) }
  else cs1

/-- extentLoop mirrors the cluster loop inside Qcow2.Extent.  Fuel is
structural; the caller passes the requested length, which bounds the
iteration count because each iteration consumes at least one byte of
`remaining` whenever the cluster size is non-zero. -/
def extentLoop (img : Qcow2) (start : Nat) :
    Nat → Nat → Nat → image.Extent → Except String image.Extent
  | 0, _, _, current => .ok current
  | fuel + 1, clusterStart, remaining, current =>
    if remaining = 0 then .ok current
    else
      match clusterStatus img clusterStart with
      | .error e => .error e
      | .ok cs0 =>
        let cs2 := clipLast img.clusterSize remaining (clipFirst start cs0)
        if current.length = 0 then
          extentLoop img start fuel (clusterStart + img.clusterSize)
            (remaining - cs2.length) cs2
        else if sameStatus current cs2 then
          extentLoop img start fuel (clusterStart + img.clusterSize)
            (remaining - cs2.length) { current with length := current.length + cs2.length }
        else .ok current

/-- Extent mirrors Qcow2.Extent: cached-unreadable guard, zero cluster
size guard, bounds check, then the merge loop starting at the aligned
cluster boundary below `start`. -/
def Qcow2.Extent (img : Qcow2) (start length : Nat) : Except String image.Extent :=
  match img.unreadable with
  | some s => .error s
  | none =>
    if img.clusterSize = 0 then .error "cluster size cannot be 0"
    else if img.size < start + length then .error "length out of bounds"
    else
      extentLoop img start length (start / img.clusterSize * img.clusterSize) length
        { start := 0, length := 0, allocated := false, zero := false, compressed := false }

/-- WellFormed collects the structural facts Qcow2.Extent's success
depends on: the image is readable, the cluster size is at least 8
bytes (the real format guarantees a power of two that is at least 512),
the L1 table covers the whole virtual size, every L2 table read from
the store has the full complement of entries, and the backing image's
extent queries succeed and start where asked (every image type in the
repository does). -/
structure WellFormed (img : Qcow2) : Prop where
  readable : img.unreadable = none
  cs8 : 8 ≤ img.clusterSize
  l1Covers : ∀ off, off < img.size →
    off / img.clusterSize / img.l2Entries < img.l1Table.length
  l2Len : ∀ o, (img.l2at o).length = img.l2Entries
  backingExtent : ∀ b, img.backing = some b → ∀ o l,
    ∃ e, b.extent o l = .ok e ∧ e.start = o

/-- magicBytes is the qcow2 magic string "QFI\xfb". -/
def magicBytes : List Nat := [0x51, 0x46, 0x49, 0xFB]

/-- HeaderFieldsV3 mirrors the v3 header block (present iff version ≥ 3). -/
structure HeaderFieldsV3 where
  incompatibleFeatures : Nat
  compatibleFeatures : Nat
  autoclearFeatures : Nat
  refcountOrder : Nat
  headerLength : Nat
deriving DecidableEq

/-- Header mirrors the parsed Header struct: the v2 core fields, the
optional v3 block and the optional additional block (its compression
type byte). -/
structure Header where
  magic : List Nat
  version : Nat
  backingFileOffset : Nat
  backingFileSize : Nat
  clusterBits : Nat
  size : Nat
  cryptMethod : Nat
  l1Size : Nat
  l1TableOffset : Nat
  refcountTableOffset : Nat
  refcountTableClusters : Nat
  nbSnapshots : Nat
  snapshotsOffset : Nat
  v3 : Option HeaderFieldsV3
  additional : Option Nat
deriving DecidableEq

/-- HErr is the kinded error taxonomy of Header.Readable (messages
dropped, distinguishing data kept). -/
inductive HErr
  | errNotQcow2
  | badClusterBits (bits : Nat)
  | errUnsupportedEncryption (method : Nat)
  | errUnsupportedFeature (bit : Nat)
  | errUnsupportedCompression (t : Nat)
deriving DecidableEq

/-- firstBadIncompatibleBit mirrors the `for i := 0; i < 64; i++` loop
of Header.Readable: the first set feature bit that is refused, namely
external-data-file (bit 2) or any bit outside the five named ones
(dirty 0, corrupt 1, compression-type 3, extended-L2 4 are accepted,
the first two and the last with a warning only). -/
def firstBadIncompatibleBit (features : Nat) : Option Nat :=
  (List.range 64).find? fun i =>
    features.testBit i && !(i == 0 || i == 1 || i == 3 || i == 4)

/-- Header.Readable mirrors Header.Readable, parameterised by the
decompressor registry `d` (the Go global map; by default only type 0,
deflate, is registered). -/
def Header.Readable (d : Nat → Bool) (h : Header) : Option HErr :=
  if h.magic ≠ magicBytes then some HErr.errNotQcow2
  else if h.version < 2 then some HErr.errNotQcow2
  else if h.clusterBits < 9 then some (HErr.badClusterBits h.clusterBits)
  else if h.cryptMethod ≠ 0 then some (HErr.errUnsupportedEncryption h.cryptMethod)
  else
    match (match h.v3 with
           | some v3 => firstBadIncompatibleBit v3.incompatibleFeatures
           | none => none) with
    | some i => some (HErr.errUnsupportedFeature i)
    | none =>
      match h.additional with
      | some t => if d t then none else some (HErr.errUnsupportedCompression t)
      | none => none

/-- defaultDecompressors models the initial decompressor registry:
only CompressionTypeZlib (0) is registered. -/
def defaultDecompressors (t : Nat) : Bool := t == 0

/-- be32 reads a big-endian 32-bit integer from a 4-byte list. -/
def be32 (bs : List Nat) : Nat := bs.foldl (fun a b => a * 256 + b) 0

/-- be64 reads a big-endian 64-bit integer from an 8-byte list. -/
def be64 (bs : List Nat) : Nat := bs.foldl (fun a b => a * 256 + b) 0

/-- sliceBytes extracts `len` bytes at offset `off` of a byte list. -/
def sliceBytes (bs : List Nat) (off len : Nat) : List Nat := (bs.drop off).take len

/-- PErr distinguishes the wrong-format sentinel (errors matching
ErrNotQcow2) from a raw I/O error of binary.Read (io.EOF or
io.ErrUnexpectedEOF on a short block). -/
inductive PErr
  | notQcow2 (why : String)
  | ioShort
deriving DecidableEq

deriving instance DecidableEq for Except

/-- readHeader mirrors readHeader over the stream bytes: binary.Read of
a fixed-size block fails exactly when fewer bytes remain than the block
needs; only the failure of the 72-byte v2 core block is wrapped in
ErrNotQcow2, the v3 (32-byte) and additional (8-byte) block failures
return the raw error.  When version ≥ 3 and header_length ≤ 104 the
additional block keeps its zero value, hence compression type 0. -/
def readHeader (data : List Nat) : Except PErr Header :=
  if data.length < 72 then .error (.notQcow2 "failed to read the v2 header fields")
  else
    let magic := data.take 4
    let version := be32 (sliceBytes data 4 4)
    if magic ≠ magicBytes then .error (.notQcow2 "the image lacks magic")
    else if version = 0 ∨ version = 1 then .error (.notQcow2 "expected version >= 2")
    else
      let core : Header :=
        { magic := magic, version := version
          backingFileOffset := be64 (sliceBytes data 8 8)
          backingFileSize := be32 (sliceBytes data 16 4)
          clusterBits := be32 (sliceBytes data 20 4)
          size := be64 (sliceBytes data 24 8)
          cryptMethod := be32 (sliceBytes data 32 4)
          l1Size := be32 (sliceBytes data 36 4)
          l1TableOffset := be64 (sliceBytes data 40 8)
          refcountTableOffset := be64 (sliceBytes data 48 8)
          refcountTableClusters := be32 (sliceBytes data 56 4)
          nbSnapshots := be32 (sliceBytes data 60 4)
          snapshotsOffset := be64 (sliceBytes data 64 8)
          v3 := none, additional := none }
      if version = 2 then .ok core
      else if data.length < 104 then .error .ioShort
      else
        let v3 : HeaderFieldsV3 :=
          { incompatibleFeatures := be64 (sliceBytes data 72 8)
            compatibleFeatures := be64 (sliceBytes data 80 8)
            autoclearFeatures := be64 (sliceBytes data 88 8)
            refcountOrder := be32 (sliceBytes data 96 4)
            headerLength := be32 (sliceBytes data 100 4) }
        if 104 < v3.headerLength then
          if data.length < 112 then .error .ioShort
          else .ok { core with v3 := some v3, additional := some (data.getD 104 0) }
        else .ok { core with v3 := some v3, additional := some 0 }

/-- ExtData models the decoded payload attached to a header extension
record (ext.Data): absent, a name string, a feature-name table, the
encryption-header pointer, or the raw payload of an unknown type. -/
inductive ExtData
  | nodata
  | str (bytes : List Nat)
  | featureTable (entries : List (Nat × Nat × List Nat))
  | encPtr (offset length : Nat)
  | raw (bytes : List Nat)
deriving DecidableEq

/-- Ext mirrors HeaderExtension. -/
structure Ext where
  type : Nat
  length : Nat
  data : ExtData
deriving DecidableEq

/-- alignUp8 models align.Up(n, 8): round up to a multiple of 8 (the
align package is not part of the translated unit; modelled from the
spec sentence that each record body is padded to an 8-byte boundary). -/
def alignUp8 (n : Nat) : Nat := (n + 7) / 8 * 8

/-- trimZeros mirrors bytes.Trim(data, "\x00"): drop zero bytes from
both ends. -/
def trimZeros (bs : List Nat) : List Nat :=
  (((bs.dropWhile (· = 0)).reverse.dropWhile (· = 0))).reverse

/-- parseFeatureNameTable mirrors the 48-byte-record decoding of a
feature name table extension. -/
def parseFeatureNameTable (len : Nat) (data : List Nat) : List (Nat × Nat × List Nat) :=
  (List.range (len / 48)).map fun i =>
    (data.getD (i * 48) 0, data.getD (i * 48 + 1) 0,
     trimZeros (sliceBytes data (i * 48 + 2) 46))

/-- rhxLoop mirrors the loop of readHeaderExtensions over the stream of
bytes following the header.  The result pairs the extensions collected
so far with an optional error, as the Go function returns partial
results alongside its error.  An oversized record (> 4096 bytes) is
recorded with a warning and, exactly as in the source, its payload is
NOT consumed: parsing continues at the first payload byte.  Fuel is
structural; each iteration appends one record and the 256-record cap
aborts the loop, so a constant 300 is ample. -/
def rhxLoop (stream : List Nat) (res : List Ext) : Nat → List Ext × Option String
  | 0 => (res, none)
  | fuel + 1 =>
    if stream.length < 4 then (res, some "failed to read the extension type")
    else
      let t := be32 (stream.take 4)
      let s1 := stream.drop 4
      if s1.length < 4 then (res, some "failed to read the extension length")
      else
        let len := be32 (s1.take 4)
        let s2 := s1.drop 4
        if 4096 < len then
          let res2 := res ++ [{ type := t, length := len, data := ExtData.nodata }]
          if 256 < res2.length then (res2, some "too many header extensions")
          else rhxLoop s2 res2 fuel
        else
          let bufLen := alignUp8 len
          if s2.length < bufLen then (res, some "failed to read the extension payload")
          else
            let data := (s2.take bufLen).take len
            let s3 := s2.drop bufLen
            if t = 0x00000000 then (res, none)
            else
              let d :=
                if t = 0xe2792aca ∨ t = 0x44415441 then ExtData.str data
                else if t = 0x6803f857 then ExtData.featureTable (parseFeatureNameTable len data)
                else if t = 0x0537be77 then
                  ExtData.encPtr (be64 (sliceBytes data 0 8)) (be64 (sliceBytes data 8 8))
                else if t = 0x23852875 then ExtData.nodata
                else ExtData.raw data
              let res2 := res ++ [{ type := t, length := len, data := d }]
              if 256 < res2.length then (res2, some "too many header extensions")
              else rhxLoop s3 res2 fuel

/-- readHeaderExtensions mirrors readHeaderExtensions applied to the
byte stream that begins at offset header.Length() of the image file.
The full-disk-encryption pointer decoding cannot fail here because the
payload buffer always holds at least the padded length. -/
def readHeaderExtensions (stream : List Nat) : List Ext × Option String :=
  rhxLoop stream [] 300

namespace lru

/-- Cache models lru.Cache: the map plus recency list are one
association list whose front is the most recently used entry and whose
keys are unique (the Go map guarantees uniqueness). -/
structure Cache (K V : Type) where
  recentlyUsed : List (K × V)
  capacity : Nat

/-- New mirrors lru.New: an empty cache with the given capacity. -/
def New (K V : Type) (capacity : Nat) : Cache K V :=
  { recentlyUsed := [], capacity := capacity }

/-- Cache.Get mirrors Cache.Get: a hit moves the entry to the front of
the recency list and returns its value; a miss leaves the cache
unchanged.  The mutated cache is returned alongside the lookup result. -/
def Cache.Get {K V : Type} [DecidableEq K] (c : Cache K V) (k : K) :
    Option V × Cache K V :=
  match c.recentlyUsed.find? (fun e => e.1 = k) with
  | some e =>
    (some e.2, { c with recentlyUsed := e :: c.recentlyUsed.eraseP (fun e => e.1 = k) })
  | none => (none, c)

/-- Cache.Add mirrors Cache.Add: a present key is moved to the front
with the new value; otherwise, when the cache is full, the back of the
recency list (the least recently used entry) is removed, and the new
entry is pushed to the front. -/
def Cache.Add {K V : Type} [DecidableEq K] (c : Cache K V) (k : K) (v : V) : Cache K V :=
  match c.recentlyUsed.find? (fun e => e.1 = k) with
  | some _ => { c with recentlyUsed := (k, v) :: c.recentlyUsed.eraseP (fun e => e.1 = k) }
  | none =>
    if c.capacity ≤ c.recentlyUsed.length then
      { c with recentlyUsed := (k, v) :: c.recentlyUsed.dropLast }
    else
      { c with recentlyUsed := (k, v) :: c.recentlyUsed }

/-- addAll folds Cache.Add over a list of key-value pairs. -/
def addAll {K V : Type} [DecidableEq K] (c : Cache K V) (items : List (K × V)) : Cache K V :=
  items.foldl (fun c e => c.Add e.1 e.2) c

end lru

namespace convert

/-- Converter models the mutable state of convert.Converter that the
mutex protects, together with the read-only size and segment size.
Error identities are abstracted to Nat. -/
structure Converter where
  size : Nat
  segmentSize : Nat
  offset : Nat
  err : Option Nat

/-- nextSegment mirrors Converter.nextSegment: under the mutex, report
stop when the cursor reached the size or an error is set; otherwise
claim the next segment and advance the cursor (clipped to size).  The
returned triple is (start, end, stop) and the updated state is paired
with it. -/
def nextSegment (c : Converter) : (Nat × Nat × Bool) × Converter :=
  if c.offset = c.size ∨ c.err ≠ none then ((0, 0, true), c)
  else
    let start := c.offset
    let off2 := if c.size < c.offset + c.segmentSize then c.size
                else c.offset + c.segmentSize
    ((start, off2, false), { c with offset := off2 })

/-- setError mirrors Converter.setError: only the first error is kept. -/
def setError (c : Converter) (e : Nat) : Converter :=
  if c.err = none then { c with err := some e } else c

/-- COp is one linearised operation on the shared converter state: a
worker claiming a segment or a worker storing an error.  The mutex
makes every concurrent execution equivalent to some sequence of these. -/
inductive COp
  | claimSeg
  | fail (e : Nat)

/-- crun applies a linearised operation sequence to the state. -/
def crun (c : Converter) (ops : List COp) : Converter :=
  ops.foldl (fun s op =>
    match op with
    | COp.claimSeg => (nextSegment s).2
    | COp.fail e => setError s e) c

/-- firstFail is the error of the first fail operation in a sequence,
if any: the error Convert returns after the workers join. -/
def firstFail : List COp → Option Nat
  | [] => none
  | COp.claimSeg :: t => firstFail t
  | COp.fail e :: _ => some e

end convert

/-- l2TableAlloc is an L2 table (64 entries for a 512-byte cluster)
whose first entry maps cluster 0 to host offset 1024 as a standard
uncompressed cluster; the rest are unallocated. -/
def l2TableAlloc : List Nat := 1024 :: List.replicate 63 0

/-- l2TableUnalloc is an L2 table with 64 unallocated entries. -/
def l2TableUnalloc : List Nat := List.replicate 64 0

/-- noDecomp is the decompressor behaviour of an image with no
compressed clusters (never consulted). -/
def noDecomp : Nat → Nat → Nat → List Nat × Option RErr := fun _ _ _ => ([], none)

/-- imgOverread is a readable image with 512-byte clusters whose
virtual size, 256 bytes, is not a multiple of the cluster size, and
whose only cluster is allocated at host offset 1024.  The host file
bytes are all 7. -/
def imgOverread : Qcow2 :=
  { size := 256, clusterBits := 9, clusterSize := openClusterSize 9
    l1Table := [4096], l2at := fun _ => l2TableAlloc, fileByte := fun _ => 7
    decompRead := noDecomp, backing := none, unreadable := none }

/-- imgTwoStatus is a readable 2048-byte image with 512-byte clusters:
cluster 0 is allocated (host offset 1024), clusters 1–3 are
unallocated, and there is no backing image. -/
def imgTwoStatus : Qcow2 :=
  { size := 2048, clusterBits := 9, clusterSize := openClusterSize 9
    l1Table := [4096], l2at := fun _ => l2TableAlloc, fileByte := fun _ => 7
    decompRead := noDecomp, backing := none, unreadable := none }

/-- backingSeven is a backing image of 100 bytes, all 7, whose ReadAt
follows the ordinary contract (full in-bounds reads, EOF when the
request reaches or passes its size) and whose Extent reports one
allocated extent starting where asked. -/
def backingSeven : BImg :=
  { size := 100
    readAt := fun l off =>
      (List.replicate (min l (100 - off)) 7, if 100 ≤ off + l then some RErr.eof else none)
    extent := fun o l =>
      .ok { start := o, length := l, allocated := true, zero := false, compressed := false } }

/-- imgWithBacking is a readable 1024-byte child image with 512-byte
clusters, every cluster unallocated, on top of backingSeven. -/
def imgWithBacking : Qcow2 :=
  { size := 1024, clusterBits := 9, clusterSize := openClusterSize 9
    l1Table := [4096], l2at := fun _ => l2TableUnalloc, fileByte := fun _ => 0
    decompRead := noDecomp, backing := some backingSeven, unreadable := none }

/-- imgZeroCluster is the image handle Open builds for a header with
cluster_bits = 64: Header.Readable accepts it (the only check is
cluster_bits ≥ 9), so errUnreadable stays nil, while the Go assignment
`clusterSize = 1 << 64` on a 64-bit int yields 0. -/
def imgZeroCluster : Qcow2 :=
  { size := 256, clusterBits := 64, clusterSize := openClusterSize 64
    l1Table := [4096], l2at := fun _ => l2TableAlloc, fileByte := fun _ => 0
    decompRead := noDecomp, backing := none, unreadable := none }

/-- shortV3Header is a stream holding a valid 72-byte v2 core with
magic and version 3, but only 4 of the 32 bytes of the v3 block: the
v3 binary.Read fails with a raw short-read error. -/
def shortV3Header : List Nat := magicBytes ++ [0, 0, 0, 3] ++ List.replicate 68 0

/-- shortAdditionalHeader is a stream with a full 104-byte v3 header
whose header_length, 112, announces the additional block, but with only
4 of its 8 bytes present: the additional binary.Read fails with a raw
short-read error. -/
def shortAdditionalHeader : List Nat :=
  magicBytes ++ [0, 0, 0, 3] ++ List.replicate 92 0 ++ [0, 0, 0, 112] ++ [0, 0, 0, 0]

/-- oversizedExtStream is a header-extension area consisting of an
oversized record (unknown type 0x99, declared length 4104 > 4096, a
4104-byte all-zero payload), then a well-formed record (unknown type
0x98, length 8, payload 1..8), then the end marker. -/
def oversizedExtStream : List Nat :=
  [0, 0, 0, 0x99] ++ [0, 0, 0x10, 0x08] ++ List.replicate 4104 0 ++
    [0, 0, 0, 0x98] ++ [0, 0, 0, 8] ++ [1, 2, 3, 4, 5, 6, 7, 8] ++
    [0, 0, 0, 0] ++ [0, 0, 0, 0]

/-- extStreamWithoutOversized is oversizedExtStream with the oversized
record (header and payload) deleted. -/
def extStreamWithoutOversized : List Nat :=
  [0, 0, 0, 0x98] ++ [0, 0, 0, 8] ++ [1, 2, 3, 4, 5, 6, 7, 8] ++
    [0, 0, 0, 0] ++ [0, 0, 0, 0]

/-- hdrExternalData is a v3 header that passes the magic, version,
cluster-bits, encryption and decompressor checks and whose
incompatible_features has exactly the external-data-file bit (bit 2)
set. -/
def hdrExternalDataV3 : HeaderFieldsV3 :=
  { incompatibleFeatures := 4, compatibleFeatures := 0,
    autoclearFeatures := 0, refcountOrder := 4, headerLength := 112 }

/-- hdrExternalData is the header around hdrExternalDataV3. -/
def hdrExternalData : Header :=
  { magic := magicBytes, version := 3, backingFileOffset := 0, backingFileSize := 0
    clusterBits := 16, size := 65536, cryptMethod := 0, l1Size := 1
    l1TableOffset := 196608, refcountTableOffset := 131072, refcountTableClusters := 1
    nbSnapshots := 0, snapshotsOffset := 0
    v3 := some hdrExternalDataV3
    additional := some 0 }

/-! Theorems. -/

/-- C1: the claim demands that a ReadAt whose request reaches or passes
the virtual size return exactly `size - off` bytes.  Evaluating the
model at the failing input — a readable image of virtual size 256 with
512-byte clusters whose single cluster is allocated — shows the code
returns 512 bytes (reading host-file data past the virtual size)
together with EOF, instead of 256 bytes: the per-cluster slice is
capped at the buffer length instead of the clipped remaining count. -/
theorem c1_overread_eval :
    (Qcow2.ReadAt imgOverread 512 0).1.length = 512 ∧
    (Qcow2.ReadAt imgOverread 512 0).2 = some RErr.eof ∧
    imgOverread.size - 0 = 256 :=
  ⟨by decide, by decide, rfl⟩

/-- C5 counterexample: a stream with a valid 72-byte v2 core, magic and
version 3, but a short v3 block is reported as the raw short-read
error, not as the wrong-format sentinel, so the claim that every short
read of the fixed header blocks matches ErrNotQcow2 fails. -/
theorem c5_v3_short_read_cex :
    readHeader shortV3Header = .error PErr.ioShort ∧
    ∀ s, PErr.ioShort ≠ PErr.notQcow2 s :=
  ⟨by decide, fun _ h => by cases h⟩

/-- C5 (amended): only a short read of the 72-byte v2 core block is
reported as an error matching ErrNotQcow2; short reads of the 32-byte
v3 block (version ≥ 3) and of the 8-byte additional block
(header_length > 104) are returned as the raw read error. -/
theorem c5_short_read_behavior :
    (∀ data : List Nat, data.length < 72 →
       ∃ s, readHeader data = .error (PErr.notQcow2 s)) ∧
    (∀ data : List Nat, 72 ≤ data.length → data.length < 104 →
       data.take 4 = magicBytes →
       be32 (sliceBytes data 4 4) ≠ 0 → be32 (sliceBytes data 4 4) ≠ 1 →
       be32 (sliceBytes data 4 4) ≠ 2 →
       readHeader data = .error PErr.ioShort) ∧
    (∀ data : List Nat, 104 ≤ data.length → data.length < 112 →
       data.take 4 = magicBytes →
       be32 (sliceBytes data 4 4) ≠ 0 → be32 (sliceBytes data 4 4) ≠ 1 →
       be32 (sliceBytes data 4 4) ≠ 2 →
       104 < be32 (sliceBytes data 100 4) →
       readHeader data = .error PErr.ioShort) := by
  refine ⟨?_, ?_, ?_⟩
  · intro data h
    exact ⟨"failed to read the v2 header fields", by simp [readHeader, h]⟩
  · intro data h72 h104 hm h0 h1 h2
    have h72n : ¬ data.length < 72 := by omega
    simp [readHeader, h72n, hm, h0, h1, h2, h104]
  · intro data h104 h112 hm h0 h1 h2 hhl
    have h72n : ¬ data.length < 72 := by omega
    have h104n : ¬ data.length < 104 := by omega
    simp [readHeader, h72n, hm, h0, h1, h2, h104n, hhl, h112]

/-- C5 witness: the three parts of the amended claim at concrete
streams: an empty stream, the 76-byte shortV3Header, and the 108-byte
shortAdditionalHeader. -/
theorem c5_short_read_behavior_witness :
    (∃ s, readHeader [] = .error (PErr.notQcow2 s)) ∧
    readHeader shortV3Header = .error PErr.ioShort ∧
    readHeader shortAdditionalHeader = .error PErr.ioShort :=
  ⟨c5_short_read_behavior.1 [] (by decide),
   c5_short_read_behavior.2.1 shortV3Header (by decide) (by decide) (by decide)
     (by decide) (by decide) (by decide),
   c5_short_read_behavior.2.2 shortAdditionalHeader (by decide) (by decide) (by decide)
     (by decide) (by decide) (by decide) (by decide)⟩

/-- C9: once the converter's error slot is set, setError leaves it
unchanged and nextSegment reports stop without claiming a segment; and
for any linearised sequence of worker operations starting from a clean
state, the error left for Convert to return after the workers join is
the first stored error. -/
theorem c9_first_error_wins :
    (∀ (c : convert.Converter) (e : Nat), c.err = some e →
       ∀ e2, convert.setError c e2 = c) ∧
    (∀ (c : convert.Converter) (e : Nat), c.err = some e →
       convert.nextSegment c = ((0, 0, true), c)) ∧
    (∀ c : convert.Converter, c.err = none →
       ∀ ops, (convert.crun c ops).err = convert.firstFail ops) := by
  have hper : ∀ (ops : List convert.COp) (c : convert.Converter) (e : Nat),
      c.err = some e → (convert.crun c ops).err = some e := by
    intro ops
    induction ops with
    | nil => intro c e h; simpa [convert.crun] using h
    | cons op t ih =>
      intro c e h
      cases op with
      | claimSeg =>
        have hstep : (convert.nextSegment c).2 = c := by
          simp [convert.nextSegment, h]
        simpa [convert.crun, hstep] using ih c e h
      | fail e2 =>
        have hstep : convert.setError c e2 = c := by
          simp [convert.setError, h]
        simpa [convert.crun, hstep] using ih c e h
  refine ⟨fun c e h e2 => by simp [convert.setError, h],
          fun c e h => by simp [convert.nextSegment, h], fun c h ops => ?_⟩
  induction ops generalizing c with
  | nil => simpa [convert.crun, convert.firstFail] using h
  | cons op t ih =>
    cases op with
    | claimSeg =>
      have hkeep : ((convert.nextSegment c).2).err = none := by
        simp only [convert.nextSegment]
        split <;> simp [h]
      simpa [convert.crun, convert.firstFail] using ih _ hkeep
    | fail e =>
      have hset : (convert.setError c e).err = some e := by
        simp [convert.setError, h]
      have := hper t (convert.setError c e) e hset
      simpa [convert.crun, convert.firstFail] using this

/-- C9 witness: the three parts at concrete states: a state with a
stored error absorbs further setError calls and stops nextSegment, and
a clean run keeps the first of two errors. -/
theorem c9_first_error_wins_witness :
    convert.setError { size := 10, segmentSize := 4, offset := 2, err := some 3 } 5 =
      { size := 10, segmentSize := 4, offset := 2, err := some 3 } ∧
    convert.nextSegment { size := 10, segmentSize := 4, offset := 2, err := some 3 } =
      ((0, 0, true), { size := 10, segmentSize := 4, offset := 2, err := some 3 }) ∧
    (convert.crun { size := 10, segmentSize := 4, offset := 0, err := none }
       [convert.COp.claimSeg, convert.COp.fail 7, convert.COp.fail 9,
        convert.COp.claimSeg]).err =
      convert.firstFail
        [convert.COp.claimSeg, convert.COp.fail 7, convert.COp.fail 9,
         convert.COp.claimSeg] :=
  ⟨c9_first_error_wins.1 _ 3 rfl 5, c9_first_error_wins.2.1 _ 3 rfl,
   c9_first_error_wins.2.2 _ rfl _⟩

/-- C10 counterexample: an image handle built by Open for a header with
cluster_bits = 64 is readable (errUnreadable is nil), yet ReadAt with
an empty buffer returns the zero-cluster-size error, not (0, nil): the
cluster-size guard also precedes the empty-buffer case. -/
theorem c10_zero_cluster_size_cex :
    imgZeroCluster.unreadable = none ∧
    Qcow2.ReadAt imgZeroCluster 0 5 = ([], some (RErr.other "cluster size cannot be 0")) :=
  ⟨rfl, rfl⟩

/-- C10 (amended): on a readable image whose cluster size is non-zero
(every image with cluster_bits < 64; for cluster_bits ≥ 64 the Go
shift makes it 0), ReadAt with an empty buffer returns (0, nil) at
every offset, including offsets at or beyond the virtual size, with no
EOF and no bounds error. -/
theorem c10_empty_buffer (img : Qcow2) (off : Nat)
    (hr : img.unreadable = none) (hcs : img.clusterSize ≠ 0) :
    Qcow2.ReadAt img 0 off = ([], none) := by
  simp [Qcow2.ReadAt, hr, hcs]

/-- C10 witness: the amended claim at a concrete readable image and an
offset far past its virtual size. -/
theorem c10_empty_buffer_witness : Qcow2.ReadAt imgTwoStatus 0 5000 = ([], none) :=
  c10_empty_buffer imgTwoStatus 5000 rfl (by decide)

/-- C4: for a header that passes the magic, version, cluster_bits,
crypt_method checks and carries a v3 block, Header.Readable returns an
UnsupportedFeature error iff the incompatible_features bitmask has the
external-data-file bit (2) set or any bit other than dirty (0),
corrupt (1), compression-type (3), extended-L2 (4) set; and when only
those four accepted bits are set (and the decompressor check passes),
the header is readable. -/
theorem c4_unsupported_feature_iff (d : Nat → Bool) (h : Header) (v3 : HeaderFieldsV3)
    (hmagic : h.magic = magicBytes) (hver : 2 ≤ h.version) (hbits : 9 ≤ h.clusterBits)
    (hcrypt : h.cryptMethod = 0) (hv3 : h.v3 = some v3)
    (hfeat : v3.incompatibleFeatures < 2 ^ 64) :
    ((∃ i, Header.Readable d h = some (HErr.errUnsupportedFeature i)) ↔
       (v3.incompatibleFeatures.testBit 2 = true ∨
        ∃ i, ¬(i = 0 ∨ i = 1 ∨ i = 3 ∨ i = 4) ∧ v3.incompatibleFeatures.testBit i = true)) ∧
    ((∀ i, v3.incompatibleFeatures.testBit i = true → i = 0 ∨ i = 1 ∨ i = 3 ∨ i = 4) →
     (∀ t, h.additional = some t → d t = true) →
     Header.Readable d h = none) := by
  have hv : ¬ h.version < 2 := by omega
  have hb : ¬ h.clusterBits < 9 := by omega
  have hR : Header.Readable d h =
      (match firstBadIncompatibleBit v3.incompatibleFeatures with
       | some i => some (HErr.errUnsupportedFeature i)
       | none =>
         match h.additional with
         | some t => if d t then none else some (HErr.errUnsupportedCompression t)
         | none => none) := by
    simp [Header.Readable, hmagic, hv, hb, hcrypt, hv3]
  constructor
  · constructor
    · rintro ⟨i, hi⟩
      rw [hR] at hi
      cases hfb : firstBadIncompatibleBit v3.incompatibleFeatures with
      | none =>
        rw [hfb] at hi
        cases hadd : h.additional with
        | none => rw [hadd] at hi; cases hi
        | some t =>
          rw [hadd] at hi
          by_cases hdt : d t <;> simp [hdt] at hi
      | some j =>
        rw [hfb] at hi
        have hpj := List.find?_some hfb
        simp only [Bool.and_eq_true, Bool.not_eq_true', decide_eq_false_iff_not,
          Bool.or_eq_false_iff, beq_eq_false_iff_ne, ne_eq] at hpj
        exact Or.inr ⟨j, by tauto, hpj.1⟩
    · intro hcases
      have hmem : ∃ x, x ∈ List.range 64 ∧
          (v3.incompatibleFeatures.testBit x &&
            !(x == 0 || x == 1 || x == 3 || x == 4)) = true := by
        rcases hcases with h2 | ⟨i, hni, hti⟩
        · exact ⟨2, by simp, by simp [h2]⟩
        · have hilt : i < 64 := by
            by_contra hge
            have : v3.incompatibleFeatures < 2 ^ i :=
              lt_of_lt_of_le hfeat (Nat.pow_le_pow_right (by norm_num) (by omega))
            rw [Nat.testBit_eq_false_of_lt this] at hti
            cases hti
          refine ⟨i, by simpa using hilt, ?_⟩
          simp only [Bool.and_eq_true, Bool.not_eq_true', Bool.or_eq_false_iff,
            beq_eq_false_iff_ne, ne_eq]
          exact ⟨hti, by tauto⟩
      have hsome : (firstBadIncompatibleBit v3.incompatibleFeatures).isSome := by
        rw [firstBadIncompatibleBit]
        exact List.find?_isSome.mpr hmem
      obtain ⟨j, hj⟩ := Option.isSome_iff_exists.mp hsome
      exact ⟨j, by rw [hR, hj]⟩
  · intro hall hadd
    have hnone : firstBadIncompatibleBit v3.incompatibleFeatures = none := by
      rw [firstBadIncompatibleBit]
      apply List.find?_eq_none.mpr
      intro x _
      cases hbx : v3.incompatibleFeatures.testBit x with
      | false => simp
      | true =>
        have := hall x hbx
        simp only [Bool.and_eq_true, Bool.not_eq_true']
        rintro ⟨-, hcontra⟩
        rcases this with h | h | h | h <;> simp [h] at hcontra
    rw [hR, hnone]
    cases hadd2 : h.additional with
    | none => rfl
    | some t => simp [hadd t hadd2]

/-- C4 witness: the iff and the acceptance clause at a concrete v3
header whose incompatible_features is exactly bit 2 (external data
file), with the default decompressor registry. -/
theorem c4_unsupported_feature_iff_witness :
    ((∃ i, Header.Readable defaultDecompressors hdrExternalData =
        some (HErr.errUnsupportedFeature i)) ↔
       (hdrExternalDataV3.incompatibleFeatures.testBit 2 = true ∨
        ∃ i, ¬(i = 0 ∨ i = 1 ∨ i = 3 ∨ i = 4) ∧
          hdrExternalDataV3.incompatibleFeatures.testBit i = true)) ∧
    ((∀ i, hdrExternalDataV3.incompatibleFeatures.testBit i = true →
        i = 0 ∨ i = 1 ∨ i = 3 ∨ i = 4) →
     (∀ t, hdrExternalData.additional = some t → defaultDecompressors t = true) →
     Header.Readable defaultDecompressors hdrExternalData = none) :=
  c4_unsupported_feature_iff defaultDecompressors hdrExternalData hdrExternalDataV3
    rfl (by decide) (by decide) rfl rfl (by simp [hdrExternalDataV3])

/-- C2: reading a cluster that is unallocated in a child with a
backing image attached returns the parent's bytes for the prefix the
parent covers and zero-fills the remainder of the request; an EOF from
the backing image's ReadAt is masked and the caller sees no error (for
any in-bounds request, in particular any cluster of the child). -/
theorem c2_backing_composition (img : Qcow2) (b : BImg) (l off : Nat) (cm : ClusterMeta)
    (hb : img.backing = some b)
    (hcm : getClusterMeta img off = .ok cm) (hal : cm.allocated = false)
    (hin : off + l ≤ img.size)
    (bs : List Nat) (err : Option RErr) (hread : b.readAt l off = (bs, err))
    (hlen : bs.length ≤ l) (herr : err = none ∨ err = some RErr.eof) :
    readAtAligned img l off = (bs ++ List.replicate (l - bs.length) 0, none) := by
  have hmask : (if err = some RErr.eof then none else err) = none := by
    rcases herr with rfl | rfl <;> simp
  by_cases hlt : bs.length < l
  · have hz : readZero (l - bs.length) (off + bs.length) img.size =
        (List.replicate (l - bs.length) 0, none) := by
      rw [readZero, if_neg]
      omega
    have hpos : 0 < l - bs.length := by omega
    simp [readAtAligned, hcm, hal, readAtAlignedUnallocated, hb, hread, hmask, hz, hpos]
  · have heq : bs.length = l := le_antisymm hlen (le_of_not_lt hlt)
    simp [readAtAligned, hcm, hal, readAtAlignedUnallocated, hb, hread, hmask, heq]

/-- C2 witness: a 1024-byte child with 512-byte unallocated clusters
over a 100-byte backing image of sevens whose ReadAt reports EOF for
the 512-byte cluster read: the caller gets the 100 parent bytes, 412
zero bytes, and no error. -/
theorem c2_backing_composition_witness :
    readAtAligned imgWithBacking 512 0 =
      (List.replicate 100 7 ++ List.replicate 412 0, none) := by
  have h := c2_backing_composition imgWithBacking backingSeven 512 0
    { l1Index := 0, l1Entry := 4096 } rfl rfl rfl (by decide)
    (List.replicate 100 7) (some RErr.eof) rfl (by simp) (Or.inr rfl)
  simpa using h

/-- Helper for C7: processing a record whose declared length 4104
exceeds 4096 consumes only the 8 header bytes — the payload is not
passed over — and appends the record with no data. -/
theorem rhxLoop_oversized_step (rest : List Nat) (fuel : Nat) :
    rhxLoop (0 :: 0 :: 0 :: 0x99 :: 0 :: 0 :: 0x10 :: 0x08 :: rest) [] (fuel + 1) =
      rhxLoop rest [{ type := 0x99, length := 4104, data := ExtData.nodata }] fuel := by
  simp [rhxLoop, be32]
  rw [if_neg (by omega), if_neg (by omega)]

/-- Helper for C7: a stream that begins with at least 8 zero bytes is
parsed as the end marker (type 0, length 0), terminating the loop. -/
theorem rhxLoop_end_at_zeros (m : Nat) (hm : 8 ≤ m) (rest : List Nat)
    (res : List Ext) (fuel : Nat) :
    rhxLoop (List.replicate m (0:Nat) ++ rest) res (fuel + 1) = (res, none) := by
  have ht4 : (List.replicate m (0:Nat) ++ rest).take 4 = [0, 0, 0, 0] := by
    rw [List.take_append_of_le_length (by simp; omega), List.take_replicate]
    have h4 : min 4 m = 4 := by omega
    rw [h4]; decide
  have hd4 : (List.replicate m (0:Nat) ++ rest).drop 4 = List.replicate (m - 4) 0 ++ rest := by
    rw [List.drop_append_of_le_length (by simp; omega), List.drop_replicate]
  have ht4b : (List.replicate (m - 4) (0:Nat) ++ rest).take 4 = [0, 0, 0, 0] := by
    rw [List.take_append_of_le_length (by simp; omega), List.take_replicate]
    have h4 : min 4 (m - 4) = 4 := by omega
    rw [h4]; decide
  simp [rhxLoop, ht4, hd4, ht4b, be32, alignUp8]
  rw [if_neg (by simp; omega), if_neg (by simp; omega)]

/-- C7: the claim says an oversized extension's padded payload is
passed over and the remaining extensions decode as if the record were
absent.  Evaluating the model at the failing input refutes this: with
the oversized record present, its all-zero payload is parsed as the
next record header (an end marker), so the following type-0x98 record
is lost; with the oversized record absent, the type-0x98 record is
decoded. -/
theorem c7_oversized_extension_eval :
    readHeaderExtensions oversizedExtStream =
      ([{ type := 0x99, length := 4104, data := ExtData.nodata }], none) ∧
    readHeaderExtensions extStreamWithoutOversized =
      ([{ type := 0x98, length := 8, data := ExtData.raw [1, 2, 3, 4, 5, 6, 7, 8] }], none) := by
  constructor
  · show rhxLoop oversizedExtStream [] 300 = _
    rw [oversizedExtStream]
    simp only [List.cons_append, List.nil_append, List.append_assoc]
    rw [show (300:Nat) = 299 + 1 from rfl, rhxLoop_oversized_step,
        show (299:Nat) = 298 + 1 from rfl, rhxLoop_end_at_zeros 4104 (by omega)]
  · decide

/-- Helper for C8: a key outside the key column is not found. -/
theorem lru_find?_eq_none_of_fresh {K V : Type} [DecidableEq K] (l : List (K × V)) (k : K)
    (h : k ∉ l.map Prod.fst) : l.find? (fun e => e.1 = k) = none := by
  apply List.find?_eq_none.mpr
  intro e he
  simp only [decide_eq_true_eq]
  intro hek
  exact h (List.mem_map.mpr ⟨e, he, hek⟩)

/-- Helper for C8: in a list with pairwise distinct keys, searching for
the key of a member finds exactly that member. -/
theorem lru_find?_eq_some_of_mem_nodup {K V : Type} [DecidableEq K] (l : List (K × V))
    (e : K × V) (hnd : (l.map Prod.fst).Nodup) (he : e ∈ l) :
    l.find? (fun x => x.1 = e.1) = some e := by
  induction l with
  | nil => cases he
  | cons a t ih =>
    rcases List.mem_cons.mp he with rfl | het
    · exact List.find?_cons_of_pos _ (by simp)
    · have hne : ¬ (a.1 = e.1) := by
        intro hae
        have : e.1 ∈ t.map Prod.fst := List.mem_map.mpr ⟨e, het, rfl⟩
        rw [← hae] at this
        exact (List.nodup_cons.mp (by simpa using hnd)).1 this
      rw [List.find?_cons_of_neg _ (by simpa using hne)]
      exact ih (List.nodup_cons.mp (by simpa using hnd)).2 het

/-- Helper for C8: adding distinct keys that are all absent from a
cache with enough spare capacity pushes them onto the recency list in
reverse insertion order, without evicting anything. -/
theorem lru_addAll_fresh {K V : Type} [DecidableEq K] (items : List (K × V)) :
    ∀ c : lru.Cache K V, (items.map Prod.fst).Nodup →
    (∀ k, k ∈ items.map Prod.fst → k ∉ c.recentlyUsed.map Prod.fst) →
    c.recentlyUsed.length + items.length ≤ c.capacity →
    lru.addAll c items =
      { recentlyUsed := items.reverse ++ c.recentlyUsed, capacity := c.capacity } := by
  induction items with
  | nil => intro c _ _ _; simp [lru.addAll]
  | cons e t ih =>
    intro c hnd hfresh hlen
    have hstep : lru.addAll c (e :: t) = lru.addAll (c.Add e.1 e.2) t := by
      simp [lru.addAll]
    have hnotin : e.1 ∉ c.recentlyUsed.map Prod.fst := hfresh e.1 (by simp)
    have hfind : c.recentlyUsed.find? (fun x => x.1 = e.1) = none :=
      lru_find?_eq_none_of_fresh _ _ hnotin
    have hlt : ¬ c.capacity ≤ c.recentlyUsed.length := by
      simp only [List.length_cons] at hlen
      omega
    have hAdd : c.Add e.1 e.2 =
        { recentlyUsed := (e.1, e.2) :: c.recentlyUsed, capacity := c.capacity } := by
      simp [lru.Cache.Add, hfind, hlt]
    have hfresh2 : ∀ k, k ∈ t.map Prod.fst →
        k ∉ ((e.1, e.2) :: c.recentlyUsed).map Prod.fst := by
      intro k hk
      simp only [List.map_cons, List.mem_cons]
      rintro (rfl | hmem)
      · exact (List.nodup_cons.mp (by simpa using hnd)).1 hk
      · exact hfresh k (by simp [hk]) hmem
    have hlen2 : ((e.1, e.2) :: c.recentlyUsed).length + t.length ≤ c.capacity := by
      simp only [List.length_cons] at hlen ⊢
      omega
    rw [hstep, hAdd]
    rw [ih _ (List.nodup_cons.mp (by simpa using hnd)).2 hfresh2 hlen2]
    simp

/-- C8: filling a capacity-c cache with c distinct keys and adding one
more distinct key evicts exactly the first-inserted key (it misses,
every other inserted key and the new key hit with their values); and
after a Get of a present key, the next eviction removes the least
recently used key, not the re-accessed one. -/
theorem c8_lru_behavior :
    (∀ (k0 v0 kx vx : Nat) (rest : List (Nat × Nat)),
      (((k0, v0) :: rest).map Prod.fst).Nodup →
      kx ∉ ((k0, v0) :: rest).map Prod.fst →
      (((lru.addAll (lru.New Nat Nat ((k0, v0) :: rest).length)
            ((k0, v0) :: rest)).Add kx vx).Get k0).1 = none ∧
      (∀ e ∈ rest,
        (((lru.addAll (lru.New Nat Nat ((k0, v0) :: rest).length)
              ((k0, v0) :: rest)).Add kx vx).Get e.1).1 = some e.2) ∧
      (((lru.addAll (lru.New Nat Nat ((k0, v0) :: rest).length)
            ((k0, v0) :: rest)).Add kx vx).Get kx).1 = some vx) ∧
    (∀ (k0 v0 k1 v1 kx vx : Nat) (rest : List (Nat × Nat)),
      (((k0, v0) :: (k1, v1) :: rest).map Prod.fst).Nodup →
      kx ∉ ((k0, v0) :: (k1, v1) :: rest).map Prod.fst →
      ((lru.addAll (lru.New Nat Nat ((k0, v0) :: (k1, v1) :: rest).length)
          ((k0, v0) :: (k1, v1) :: rest)).Get k0).1 = some v0 ∧
      (((((lru.addAll (lru.New Nat Nat ((k0, v0) :: (k1, v1) :: rest).length)
            ((k0, v0) :: (k1, v1) :: rest)).Get k0).2).Add kx vx).Get k0).1 = some v0 ∧
      (((((lru.addAll (lru.New Nat Nat ((k0, v0) :: (k1, v1) :: rest).length)
            ((k0, v0) :: (k1, v1) :: rest)).Get k0).2).Add kx vx).Get k1).1 = none) := by
  constructor
  · intro k0 v0 kx vx rest hnd hfr
    rw [List.map_cons, List.nodup_cons] at hnd
    have hfill := lru_addAll_fresh ((k0, v0) :: rest)
      (lru.New Nat Nat ((k0, v0) :: rest).length)
      (by rw [List.map_cons, List.nodup_cons]; exact hnd) (by simp [lru.New]) (by simp [lru.New])
    set c1 := lru.addAll (lru.New Nat Nat ((k0, v0) :: rest).length) ((k0, v0) :: rest) with hc1
    have hru : c1.recentlyUsed = rest.reverse ++ [(k0, v0)] := by
      rw [hfill]; simp [lru.New]
    have hcap : c1.capacity = rest.length + 1 := by rw [hfill]; simp [lru.New]
    have hk0rest : k0 ∉ rest.map Prod.fst := hnd.1
    have hkxk0 : kx ≠ k0 := by
      intro h
      exact hfr (by simp [h])
    have hkxrest : kx ∉ rest.map Prod.fst := by
      intro h
      exact hfr (by simp [h])
    have hfx : (rest.reverse ++ [(k0, v0)]).find? (fun e => e.1 = kx) = none := by
      apply lru_find?_eq_none_of_fresh
      simp only [List.map_append, List.map_reverse, List.mem_append, List.mem_reverse]
      rintro (h | h)
      · exact hkxrest h
      · simp at h
        exact hkxk0 h
    have hfull : c1.capacity ≤ (rest.reverse ++ [(k0, v0)]).length := by
      rw [hcap]; simp
    have hAdd : (c1.Add kx vx).recentlyUsed = (kx, vx) :: rest.reverse := by
      simp only [lru.Cache.Add, hru, hfx, if_pos hfull]
      rw [List.dropLast_concat]
    refine ⟨?_, ?_, ?_⟩
    · have hnone : ((c1.Add kx vx).recentlyUsed).find? (fun e => e.1 = k0) = none := by
        rw [hAdd]
        apply lru_find?_eq_none_of_fresh
        simp only [List.map_cons, List.map_reverse, List.mem_cons, List.mem_reverse]
        rintro (h | h)
        · exact hkxk0 h.symm
        · exact hk0rest (by simpa using h)
      simp [lru.Cache.Get, hnone]
    · intro e he
      have hnd2 : (((kx, vx) :: rest.reverse).map Prod.fst).Nodup := by
        simp only [List.map_cons, List.map_reverse, List.nodup_cons, List.nodup_reverse,
          List.mem_reverse]
        exact ⟨by simpa using hkxrest, hnd.2⟩
      have hsome : ((c1.Add kx vx).recentlyUsed).find? (fun x => x.1 = e.1) = some e := by
        rw [hAdd]
        exact lru_find?_eq_some_of_mem_nodup _ e hnd2 (by simp [he])
      simp [lru.Cache.Get, hsome]
    · have hsome : ((c1.Add kx vx).recentlyUsed).find? (fun x => x.1 = kx) = some (kx, vx) := by
        rw [hAdd]
        exact List.find?_cons_of_pos _ (by simp)
      simp [lru.Cache.Get, hsome]
  · intro k0 v0 k1 v1 kx vx rest hnd hfr
    have hfill := lru_addAll_fresh ((k0, v0) :: (k1, v1) :: rest)
      (lru.New Nat Nat ((k0, v0) :: (k1, v1) :: rest).length) hnd
      (by simp [lru.New]) (by simp [lru.New])
    rw [List.map_cons, List.map_cons, List.nodup_cons, List.nodup_cons] at hnd
    set c1 := lru.addAll (lru.New Nat Nat ((k0, v0) :: (k1, v1) :: rest).length)
      ((k0, v0) :: (k1, v1) :: rest) with hc1
    have hru : c1.recentlyUsed = rest.reverse ++ [(k1, v1), (k0, v0)] := by
      rw [hfill]; simp [lru.New]
    have hcap : c1.capacity = rest.length + 2 := by rw [hfill]; simp [lru.New]
    have hk1rest : k1 ∉ rest.map Prod.fst := hnd.2.1
    have hndrest : (rest.map Prod.fst).Nodup := hnd.2.2
    have hk0k1 : k0 ≠ k1 := by
      intro h
      exact hnd.1 (by simp [h])
    have hk0rest : k0 ∉ rest.map Prod.fst := by
      intro h
      exact hnd.1 (by simp [h])
    have hkxk0 : kx ≠ k0 := fun h => hfr (by simp [h])
    have hkxk1 : kx ≠ k1 := fun h => hfr (by simp [h])
    have hkxrest : kx ∉ rest.map Prod.fst := fun h => hfr (by simp [h])
    have hndru : (c1.recentlyUsed.map Prod.fst).Nodup := by
      rw [hru]
      simp only [List.map_append, List.map_reverse, List.map_cons, List.map_nil]
      rw [List.nodup_append]
      refine ⟨by simpa using hndrest, ?_, ?_⟩
      · simp [List.nodup_cons, hk0k1.symm]
      · intro a ha hb
        simp only [List.mem_reverse] at ha
        simp only [List.mem_cons, List.mem_singleton] at hb
        rcases hb with rfl | rfl | h
        · exact hk1rest ha
        · exact hk0rest ha
        · cases h
    have hmem0 : (k0, v0) ∈ c1.recentlyUsed := by
      rw [hru]; simp
    have hfind0 : c1.recentlyUsed.find? (fun x => x.1 = k0) = some (k0, v0) :=
      lru_find?_eq_some_of_mem_nodup _ (k0, v0) hndru hmem0
    have hget0 : (c1.Get k0).1 = some v0 := by
      simp [lru.Cache.Get, hfind0]
    have herase2 : List.eraseP (fun x => decide (x.1 = k0)) [(k1, v1), (k0, v0)] =
        [(k1, v1)] := by
      rw [List.eraseP_cons_of_neg (by simpa using hk0k1.symm)]
      rw [List.eraseP_cons_of_pos (by simp)]
    have herase : c1.recentlyUsed.eraseP (fun x => decide (x.1 = k0)) =
        rest.reverse ++ [(k1, v1)] := by
      rw [hru]
      rw [List.eraseP_append_right _ ?side, herase2]
      case side =>
        intro b hb
        simp only [List.mem_reverse] at hb
        simp only [decide_eq_true_eq]
        intro hbk
        exact hk0rest (List.mem_map.mpr ⟨b, hb, hbk⟩)
    have hc1' : ((c1.Get k0).2).recentlyUsed = (k0, v0) :: (rest.reverse ++ [(k1, v1)]) := by
      simp [lru.Cache.Get, hfind0, herase]
    have hc1'cap : ((c1.Get k0).2).capacity = c1.capacity := by
      simp [lru.Cache.Get, hfind0]
    have hfx : ((k0, v0) :: (rest.reverse ++ [(k1, v1)])).find? (fun e => e.1 = kx) = none := by
      apply lru_find?_eq_none_of_fresh
      simp only [List.map_cons, List.map_append, List.map_reverse, List.mem_cons,
        List.mem_append, List.mem_reverse, List.map_nil]
      rintro (h | h | h)
      · exact hkxk0 h
      · exact hkxrest h
      · simp at h
        exact hkxk1 h
    have hfull : ((c1.Get k0).2).capacity ≤
        ((k0, v0) :: (rest.reverse ++ [(k1, v1)])).length := by
      rw [hc1'cap, hcap]
      simp
    have hAdd : ((((c1.Get k0).2).Add kx vx)).recentlyUsed =
        (kx, vx) :: (k0, v0) :: rest.reverse := by
      simp only [lru.Cache.Add, hc1', hfx, if_pos hfull]
      have hsplit : (k0, v0) :: (rest.reverse ++ [(k1, v1)]) =
          ((k0, v0) :: rest.reverse) ++ [(k1, v1)] := by simp
      rw [hsplit, List.dropLast_concat]
    refine ⟨hget0, ?_, ?_⟩
    · have hsome : (((((c1.Get k0).2).Add kx vx)).recentlyUsed).find?
          (fun x => x.1 = k0) = some (k0, v0) := by
        rw [hAdd]
        rw [List.find?_cons_of_neg _ (by simpa using hkxk0)]
        exact List.find?_cons_of_pos _ (by simp)
      rw [lru.Cache.Get, hsome]
    · have hnone : (((((c1.Get k0).2).Add kx vx)).recentlyUsed).find?
          (fun x => x.1 = k1) = none := by
        rw [hAdd]
        apply lru_find?_eq_none_of_fresh
        simp only [List.map_cons, List.map_reverse, List.mem_cons, List.mem_reverse]
        rintro (h | h | h)
        · exact hkxk1 h.symm
        · exact hk0k1 h.symm
        · exact hk1rest (by simpa using h)
      rw [lru.Cache.Get, hnone]

/-- C8 witness: a capacity-3 cache filled with keys 1, 2, 3; adding 4
evicts 1 and keeps 2, 3, 4; and in a fresh fill, re-accessing 1 before
adding 4 makes the eviction fall on 2 instead of 1. -/
theorem c8_lru_behavior_witness :
    ((((lru.addAll (lru.New Nat Nat [(1, 10), (2, 20), (3, 30)].length)
          [(1, 10), (2, 20), (3, 30)]).Add 4 40).Get 1).1 = none ∧
     (∀ e ∈ [(2, 20), (3, 30)],
       (((lru.addAll (lru.New Nat Nat [(1, 10), (2, 20), (3, 30)].length)
            [(1, 10), (2, 20), (3, 30)]).Add 4 40).Get e.1).1 = some e.2) ∧
     (((lru.addAll (lru.New Nat Nat [(1, 10), (2, 20), (3, 30)].length)
          [(1, 10), (2, 20), (3, 30)]).Add 4 40).Get 4).1 = some 40) ∧
    (((lru.addAll (lru.New Nat Nat [(1, 10), (2, 20), (3, 30)].length)
          [(1, 10), (2, 20), (3, 30)]).Get 1).1 = some 10 ∧
     (((((lru.addAll (lru.New Nat Nat [(1, 10), (2, 20), (3, 30)].length)
          [(1, 10), (2, 20), (3, 30)]).Get 1).2).Add 4 40).Get 1).1 = some 10 ∧
     (((((lru.addAll (lru.New Nat Nat [(1, 10), (2, 20), (3, 30)].length)
          [(1, 10), (2, 20), (3, 30)]).Get 1).2).Add 4 40).Get 2).1 = none) :=
  ⟨c8_lru_behavior.1 1 10 4 40 [(2, 20), (3, 30)] (by decide) (by decide),
   c8_lru_behavior.2 1 10 2 20 4 40 [(3, 30)] (by decide) (by decide)⟩

/-- Helper for C3/C6: the buggy first clip never changes the length
(it subtracts `start - start = 0`). -/
theorem clipFirst_length (start : Nat) (e : image.Extent) :
    (clipFirst start e).length = e.length := by
  unfold clipFirst
  split <;> simp

/-- Helper for C3/C6: the first clip moves the start up to `start`
when it was below it. -/
theorem clipFirst_start (start : Nat) (e : image.Extent) :
    (clipFirst start e).start = if e.start < start then start else e.start := by
  unfold clipFirst
  split <;> simp_all

/-- Helper for C3/C6: the first clip keeps the status fields. -/
theorem clipFirst_status (start : Nat) (e : image.Extent) :
    (clipFirst start e).allocated = e.allocated ∧ (clipFirst start e).zero = e.zero ∧
      (clipFirst start e).compressed = e.compressed := by
  unfold clipFirst
  split <;> simp

/-- Helper for C3/C6: the last clip leaves the start unchanged. -/
theorem clipLast_start (cs rem : Nat) (e : image.Extent) :
    (clipLast cs rem e).start = e.start := by
  unfold clipLast
  split <;> simp

/-- Helper for C3/C6: on a full-cluster extent, the last clip trims the
length to `remaining` when less than a cluster remains. -/
theorem clipLast_length (cs rem : Nat) (e : image.Extent) (he : e.length = cs) :
    (clipLast cs rem e).length = if rem < cs then rem else cs := by
  unfold clipLast
  split
  · simp [he]
    omega
  · simp [he]

/-- Helper for C3/C6: on a well-formed image the cluster resolver
succeeds for every in-bounds offset. -/
theorem getClusterMeta_ok (img : Qcow2) (hwf : WellFormed img) (off : Nat)
    (hoff : off < img.size) : ∃ cm, getClusterMeta img off = .ok cm := by
  have hl1 : ¬ img.l1Table.length ≤ off / img.clusterSize / img.l2Entries :=
    not_le.mpr (hwf.l1Covers off hoff)
  have hent : 0 < img.l2Entries := by
    have := hwf.cs8
    unfold Qcow2.l2Entries
    omega
  have hl2 : ∀ o, ¬ ((img.l2at o).length ≤ (off / img.clusterSize) % img.l2Entries) := by
    intro o
    rw [hwf.l2Len o]
    exact not_le.mpr (Nat.mod_lt _ hent)
  simp only [getClusterMeta]
  rw [if_neg hl1]
  split
  · exact ⟨_, rfl⟩
  · rw [if_neg (hl2 _)]
    split
    · exact ⟨_, rfl⟩
    · split
      · exact ⟨_, rfl⟩
      · exact ⟨_, rfl⟩

/-- Helper for C3/C6: on a well-formed image the per-cluster status
succeeds for every in-bounds offset, starts at the queried offset and
spans one cluster. -/
theorem clusterStatus_ok (img : Qcow2) (hwf : WellFormed img) (off : Nat)
    (hoff : off < img.size) :
    ∃ e, clusterStatus img off = .ok e ∧ e.start = off ∧ e.length = img.clusterSize := by
  obtain ⟨cm, hcm⟩ := getClusterMeta_ok img hwf off hoff
  simp only [clusterStatus, hcm]
  by_cases hal : cm.allocated = false
  · rw [if_pos hal]
    cases hb : img.backing with
    | none => exact ⟨_, rfl, rfl, rfl⟩
    | some b =>
      by_cases hbs : b.size ≤ off
      · exact ⟨⟨off, img.clusterSize, false, true, false⟩, by simp [hbs], rfl, rfl⟩
      · obtain ⟨e, he, hes⟩ := hwf.backingExtent b hb off
          (if b.size < off + img.clusterSize then b.size - off else img.clusterSize)
        exact ⟨{ e with length := img.clusterSize }, by simp [hbs, he], by simpa using hes, rfl⟩
  · rw [if_neg hal]
    exact ⟨_, rfl, rfl, rfl⟩

/-- Helper for C3/C6: once the accumulated extent is non-empty, the
loop succeeds, never moves the extent's start, and grows its length by
at most the remaining byte count. -/
theorem extentLoop_pos (img : Qcow2) (hwf : WellFormed img) (start : Nat) :
    ∀ (fuel clusterStart remaining : Nat) (current : image.Extent),
    remaining ≤ fuel →
    (0 < remaining → clusterStart + remaining ≤ img.size) →
    current.length ≠ 0 →
    ∃ e, extentLoop img start fuel clusterStart remaining current = .ok e ∧
      e.start = current.start ∧ e.length ≤ current.length + remaining := by
  intro fuel
  induction fuel with
  | zero =>
    intro clusterStart remaining current hrem _ _
    refine ⟨current, by simp [extentLoop], rfl, by omega⟩
  | succ n ih =>
    intro clusterStart remaining current hrem hsz hcl
    by_cases hr0 : remaining = 0
    · subst hr0
      refine ⟨current, by simp [extentLoop], rfl, by omega⟩
    · have hlt : clusterStart < img.size := by
        have := hsz (Nat.pos_of_ne_zero hr0)
        omega
      obtain ⟨cs0, hcs0, hcs0s, hcs0l⟩ := clusterStatus_ok img hwf clusterStart hlt
      have hcs2l : (clipLast img.clusterSize remaining (clipFirst start cs0)).length =
          if remaining < img.clusterSize then remaining else img.clusterSize := by
        rw [clipLast_length _ _ _ (by rw [clipFirst_length, hcs0l])]
      have hcspos : 0 < img.clusterSize := by have := hwf.cs8; omega
      have hcs2pos : 0 < (clipLast img.clusterSize remaining (clipFirst start cs0)).length := by
        rw [hcs2l]
        split <;> omega
      have hcs2le : (clipLast img.clusterSize remaining (clipFirst start cs0)).length ≤
          remaining := by
        rw [hcs2l]
        split <;> omega
      simp only [extentLoop, hcs0]
      rw [if_neg hr0, if_neg hcl]
      by_cases hss : sameStatus current (clipLast img.clusterSize remaining (clipFirst start cs0))
      · rw [if_pos hss]
        have hsz2 : 0 < remaining - (clipLast img.clusterSize remaining (clipFirst start cs0)).length →
            clusterStart + img.clusterSize +
              (remaining - (clipLast img.clusterSize remaining (clipFirst start cs0)).length) ≤
              img.size := by
          intro hpos
          have hnl : ¬ remaining < img.clusterSize := by
            intro hcon
            rw [hcs2l, if_pos hcon] at hpos
            omega
          rw [hcs2l, if_neg hnl] at hpos ⊢
          have := hsz (Nat.pos_of_ne_zero hr0)
          omega
        obtain ⟨e, he, hes, hel⟩ := ih (clusterStart + img.clusterSize)
          (remaining - (clipLast img.clusterSize remaining (clipFirst start cs0)).length)
          { current with length :=
              current.length + (clipLast img.clusterSize remaining (clipFirst start cs0)).length }
          (by omega) hsz2 (by simp; omega)
        refine ⟨e, he, by simpa using hes, ?_⟩
        simp only at hel
        omega
      · rw [if_neg hss]
        exact ⟨current, rfl, rfl, by omega⟩

/-- Helper for C3/C6: on a well-formed image every in-bounds extent
query succeeds; when the requested length is positive the returned
extent starts at the queried start and is no longer than requested. -/
theorem Extent_ok (img : Qcow2) (hwf : WellFormed img) (start length : Nat)
    (hin : start + length ≤ img.size) :
    ∃ e, Qcow2.Extent img start length = .ok e ∧
      (0 < length → e.start = start ∧ e.length ≤ length) := by
  have hcspos : 0 < img.clusterSize := by have := hwf.cs8; omega
  have hcs0 : ¬ img.clusterSize = 0 := by omega
  simp only [Qcow2.Extent, hwf.readable]
  rw [if_neg hcs0, if_neg (not_lt.mpr hin)]
  cases length with
  | zero =>
    exact ⟨⟨0, 0, false, false, false⟩, by simp [extentLoop], by omega⟩
  | succ m =>
    have hcls : start / img.clusterSize * img.clusterSize ≤ start :=
      Nat.div_mul_le_self start img.clusterSize
    have hlt : start / img.clusterSize * img.clusterSize < img.size := by omega
    obtain ⟨cs0, hcs0e, hcs0s, hcs0l⟩ := clusterStatus_ok img hwf _ hlt
    have hcs2l : (clipLast img.clusterSize (m + 1) (clipFirst start cs0)).length =
        if m + 1 < img.clusterSize then m + 1 else img.clusterSize := by
      rw [clipLast_length _ _ _ (by rw [clipFirst_length, hcs0l])]
    have hcs2s : (clipLast img.clusterSize (m + 1) (clipFirst start cs0)).start = start := by
      rw [clipLast_start, clipFirst_start, hcs0s]
      split <;> omega
    have hcs2pos : 0 < (clipLast img.clusterSize (m + 1) (clipFirst start cs0)).length := by
      rw [hcs2l]
      split <;> omega
    have hcs2le : (clipLast img.clusterSize (m + 1) (clipFirst start cs0)).length ≤ m + 1 := by
      rw [hcs2l]
      split <;> omega
    simp only [extentLoop, hcs0e]
    rw [if_neg (by omega : ¬ m + 1 = 0)]
    rw [if_pos trivial]
    have hsz2 : 0 < m + 1 - (clipLast img.clusterSize (m + 1) (clipFirst start cs0)).length →
        start / img.clusterSize * img.clusterSize + img.clusterSize +
          (m + 1 - (clipLast img.clusterSize (m + 1) (clipFirst start cs0)).length) ≤
          img.size := by
      intro hpos
      have hnl : ¬ m + 1 < img.clusterSize := by
        intro hcon
        rw [hcs2l, if_pos hcon] at hpos
        omega
      rw [hcs2l, if_neg hnl] at hpos ⊢
      omega
    obtain ⟨e, he, hes, hel⟩ := extentLoop_pos img hwf start m
      (start / img.clusterSize * img.clusterSize + img.clusterSize)
      (m + 1 - (clipLast img.clusterSize (m + 1) (clipFirst start cs0)).length)
      (clipLast img.clusterSize (m + 1) (clipFirst start cs0))
      (by omega) hsz2 (by omega)
    refine ⟨e, he, fun _ => ⟨by rw [hes, hcs2s], by omega⟩⟩

/-- C6: on a readable well-formed image (cluster size at least 8, L1
covering the virtual size, full L2 tables, total backing extents),
Extent(start, length) returns an error iff start + length exceeds the
virtual size; every in-bounds query succeeds. -/
theorem c6_extent_error_iff (img : Qcow2) (hwf : WellFormed img) (start length : Nat) :
    (∃ s, Qcow2.Extent img start length = .error s) ↔ img.size < start + length := by
  constructor
  · rintro ⟨s, hs⟩
    by_contra hle
    push_neg at hle
    obtain ⟨e, he, -⟩ := Extent_ok img hwf start length hle
    rw [he] at hs
    cases hs
  · intro hgt
    refine ⟨"length out of bounds", ?_⟩
    have hcs0 : ¬ img.clusterSize = 0 := by have := hwf.cs8; omega
    simp only [Qcow2.Extent, hwf.readable]
    rw [if_neg hcs0, if_pos hgt]

/-- Helper lemma: imgTwoStatus is well formed. -/
theorem imgTwoStatus_wf : WellFormed imgTwoStatus := by
  refine ⟨rfl, by decide, ?_, ?_, ?_⟩
  · intro off hoff
    have hsz : off < 2048 := hoff
    have h1 : off / imgTwoStatus.clusterSize = off / 512 := rfl
    have h2 : off / 512 < 64 := by
      have : off / 512 ≤ 3 := by
        have := Nat.div_le_div_right (c := 512) (Nat.le_of_lt_succ (by omega : off < 2048))
        calc off / 512 ≤ 2047 / 512 := Nat.div_le_div_right (by omega)
          _ = 3 := by norm_num
      omega
    show off / imgTwoStatus.clusterSize / imgTwoStatus.l2Entries < 1
    have h3 : imgTwoStatus.l2Entries = 64 := rfl
    rw [h1, h3]
    rw [Nat.div_eq_of_lt h2]
    omega
  · intro o
    show l2TableAlloc.length = 64
    decide
  · intro b hb
    simp [imgTwoStatus] at hb

/-- C3 counterexample: on imgTwoStatus (cluster 0 allocated, cluster 1
unallocated), the query Extent(100, 924) returns the extent
[100, 612): its end is an interior boundary of the query (612 ≠ 1024)
yet is not cluster-aligned, because the first-cluster clip moves Start
to 100 without shortening the 512-byte length.  This refutes the
claim's parenthetical that interior boundaries stay cluster-aligned
(the extent also reports bytes [512, 612) with cluster 0's status even
though they lie in the unallocated cluster 1). -/
theorem c3_interior_boundary_cex :
    Qcow2.Extent imgTwoStatus 100 924 =
      .ok { start := 100, length := 512, allocated := true, zero := false, compressed := false } ∧
    100 + 512 < 100 + 924 ∧ (100 + 512) % imgTwoStatus.clusterSize ≠ 0 :=
  ⟨rfl, by omega, by decide⟩

/-- C3 (amended): on a readable well-formed image, every query with
0 < length and start + length ≤ size succeeds and the returned extent
is clipped to the requested window — its Start equals start (hence is
at least start) and Start + Length is at most start + length; but an
extent boundary at a status change need not be cluster-aligned when
start is unaligned, since the first-cluster clip does not shorten the
first cluster's length. -/
theorem c3_clipped_to_window (img : Qcow2) (hwf : WellFormed img) (start length : Nat)
    (hpos : 0 < length) (hin : start + length ≤ img.size) :
    ∃ e, Qcow2.Extent img start length = .ok e ∧ e.start = start ∧
      e.start + e.length ≤ start + length := by
  obtain ⟨e, he, h⟩ := Extent_ok img hwf start length hin
  obtain ⟨hs, hl⟩ := h hpos
  exact ⟨e, he, hs, by omega⟩

/-- C3 witness: the clipped query Extent(100, 924) on imgTwoStatus. -/
theorem c3_clipped_to_window_witness :
    ∃ e, Qcow2.Extent imgTwoStatus 100 924 = .ok e ∧ e.start = 100 ∧
      e.start + e.length ≤ 100 + 924 :=
  c3_clipped_to_window imgTwoStatus imgTwoStatus_wf 100 924 (by omega) (by decide)

/-- C6 witness: the iff at a concrete well-formed image, for an exactly
in-bounds query. -/
theorem c6_extent_error_iff_witness :
    (∃ s, Qcow2.Extent imgTwoStatus 0 2048 = .error s) ↔ imgTwoStatus.size < 0 + 2048 :=
  c6_extent_error_iff imgTwoStatus imgTwoStatus_wf 0 2048

end GoQcow2
